import Mathlib

/-!
Verification of the currency-bot worker (`index.js`, the complete draft that
defines `parseTimeRange`, `parseInputAmount`, `normalizeCurrency`,
`combineEuroData`, `generateHistoryTable` and the historical fallback chain).

JavaScript `Date` values are embedded as calendar triples (year, 0-based
month, day-of-month) with the overflow normalization `new Date(y, m, d)`
performs, restricted to the argument ranges this worker actually produces
(0 ≤ m ≤ 12, 0 ≤ d ≤ 31, at most one month of day overflow).  Floating
point rates and amounts are embedded as rationals; JS `NaN`/`null` results
become `Option.none`.
-/

namespace CurrencyBot

/-- JS `Date` as a calendar date: `year`, 0-based `month`, 1-based `day`. -/
structure JDate where
  year : Int
  month : Nat
  day : Nat
deriving DecidableEq, Repr

/-- Leap-year test as written in the source:
`(y % 4 === 0 && y % 100 !== 0) || y % 400 === 0`. -/
def isLeapYear (y : Int) : Bool :=
  (y % 4 == 0 && y % 100 != 0) || y % 400 == 0

/-- Number of days of 0-based month `m` in year `y` (JS calendar). -/
def daysInMonth (y : Int) (m : Nat) : Nat :=
  match m with
  | 0 => 31
  | 1 => if isLeapYear y then 29 else 28
  | 2 => 31
  | 3 => 30
  | 4 => 31
  | 5 => 30
  | 6 => 31
  | 7 => 31
  | 8 => 30
  | 9 => 31
  | 10 => 30
  | _ => 31

/-- Predicate: `d` is a well-formed calendar date (what `new Date()` always returns). -/
def ValidJDate (d : JDate) : Prop :=
  d.month ≤ 11 ∧ 1 ≤ d.day ∧ d.day ≤ daysInMonth d.year d.month

instance (d : JDate) : Decidable (ValidJDate d) := by
  unfold ValidJDate; infer_instance

/-- The `new Date(y, m, d)` calendar normalization for the ranges the
worker produces: months ≥ 12 carry into the year, a day past the month's
end rolls into the following month (a single month suffices for day ≤ 31).
This is the pre-clip calendar arithmetic; ECMAScript's time-value clip
(beyond which a `Date` is Invalid) is modeled by `inEcmaRange` and applied
in `parseTimeRangeJS` below. -/
def mkJDate (y : Int) (m : Nat) (d : Nat) : JDate :=
  let y1 : Int := y + (m / 12)
  let m1 : Nat := m % 12
  if d > daysInMonth y1 m1 then
    if m1 = 11 then ⟨y1 + 1, 0, d - daysInMonth y1 m1⟩
    else ⟨y1, m1 + 1, d - daysInMonth y1 m1⟩
  else ⟨y1, m1, d⟩

/-- JS `date.setDate(n)`: day 0 means the last day of the previous month,
a day past the month's end rolls forward (single-step, enough for n ≤ 31). -/
def setDate (d : JDate) (n : Nat) : JDate :=
  if n = 0 then
    if d.month = 0 then ⟨d.year - 1, 11, 31⟩
    else ⟨d.year, d.month - 1, daysInMonth d.year (d.month - 1)⟩
  else if n > daysInMonth d.year d.month then
    if d.month = 11 then ⟨d.year + 1, 0, n - daysInMonth d.year d.month⟩
    else ⟨d.year, d.month + 1, n - daysInMonth d.year d.month⟩
  else ⟨d.year, d.month, n⟩

/-- JS `date.setFullYear(y)`: replace the year, re-normalizing the day
(Feb 29 becomes Mar 1 when the new year is not a leap year). -/
def setFullYear (y : Int) (d : JDate) : JDate :=
  if d.day > daysInMonth y d.month then
    if d.month = 11 then ⟨y + 1, 0, d.day - daysInMonth y d.month⟩
    else ⟨y, d.month + 1, d.day - daysInMonth y d.month⟩
  else ⟨y, d.month, d.day⟩

/-- Strict calendar order (JS `date1 < date2` on same-time-of-day dates). -/
def jltb (a b : JDate) : Bool :=
  if a.year < b.year then true
  else if b.year < a.year then false
  else if a.month < b.month then true
  else if b.month < a.month then false
  else decide (a.day < b.day)

/-- Calendar `≤`, the complement of reversed `jltb`. -/
def jleb (a b : JDate) : Bool := !(jltb b a)

/-- ASCII digit test. -/
def isDigitC (c : Char) : Bool := '0' ≤ c && c ≤ '9'

/-- Digit list to number, most significant first (JS `parseInt` on digits). -/
def digitsToNat (cs : List Char) : Nat :=
  cs.foldl (fun n c => 10 * n + (c.toNat - '0'.toNat)) 0

inductive TimeUnit where
  | years
  | months
deriving DecidableEq, Repr

/-- One attempt of the regex `(过去|最近)?(\d+)(年|个月|月)` anchored at the
head of `cs`: optional marker, then one or more digits, then a unit. -/
def tryMatchAt (cs : List Char) : Option (Nat × TimeUnit) :=
  let cs1 :=
    match cs with
    | '过' :: '去' :: t => t
    | '最' :: '近' :: t => t
    | t => t
  let ds := cs1.takeWhile isDigitC
  if ds.isEmpty then none
  else
    match cs1.drop ds.length with
    | '年' :: _ => some (digitsToNat ds, TimeUnit.years)
    | '个' :: '月' :: _ => some (digitsToNat ds, TimeUnit.months)
    | '月' :: _ => some (digitsToNat ds, TimeUnit.months)
    | _ => none

/-- Unanchored search of the regex: first match at the leftmost position
(`String.prototype.match` semantics for this pattern). -/
def matchTimeRange : List Char → Option (Nat × TimeUnit)
  | [] => none
  | c :: rest =>
    match tryMatchAt (c :: rest) with
    | some r => some r
    | none => matchTimeRange rest

/-- The `unit === '年'` branch of `parseTimeRange` (also the no-match default
branch with `num = 10`): `new Date(currentYear - num, currentMonth,
currentDate)` followed by the source's Feb-29 adjustment `setDate(28)`. -/
def yearStart (num : Nat) (now : JDate) : JDate :=
  let startYear : Int := now.year - num
  let d := mkJDate startYear now.month now.day
  if now.month = 1 ∧ now.day = 29 ∧ ¬ isLeapYear startYear then
    setDate d 28
  else d

/-- The month branch of `parseTimeRange`: subtract `num` months with the
source's year-borrow arithmetic, then `setDate(0)` when the day changed. -/
def monthStart (num : Nat) (now : JDate) : JDate :=
  let targetMonth : Int := (now.month : Int) - (num : Int)
  let d :=
    if 0 ≤ targetMonth then mkJDate now.year targetMonth.toNat now.day
    else
      let yearsBack : Nat := (targetMonth.natAbs + 11) / 12
      let adjustedMonth : Int := 12 + Int.tmod targetMonth 12
      mkJDate (now.year - yearsBack) adjustedMonth.toNat now.day
  if d.day ≠ now.day then setDate d 0 else d

/-- The start date `parseTimeRange` computes before the final defensive clamp. -/
def parseTimeRangeRaw (input : String) (now : JDate) : JDate :=
  match matchTimeRange input.data with
  | some (num, TimeUnit.years) => yearStart num now
  | some (num, TimeUnit.months) => monthStart num now
  | none => yearStart 10 now

/-- Source `parseTimeRange(input)` at current date `now`: returns
`(startDate, endDate)`.  The final step is the source's defensive clamp
`if (startDate > endDate) startDate = endDate with year - 1`. -/
def parseTimeRange (input : String) (now : JDate) : JDate × JDate :=
  let raw := parseTimeRangeRaw input now
  (if jltb now raw then setFullYear (now.year - 1) now else raw, now)

/-- Day number of a calendar date counted from 1970-01-01 (proleptic
Gregorian, 0-based month), the standard days-from-civil computation.
Used only to state ECMAScript's time-value clip. -/
def epochDays (dt : JDate) : Int :=
  let m : Int := dt.month + 1
  let y : Int := if m ≤ 2 then dt.year - 1 else dt.year
  let era : Int := (if 0 ≤ y then y else y - 399) / 400
  let yoe : Int := y - era * 400
  let doy : Int :=
    (153 * (if 2 < m then m - 3 else m + 9) + 2) / 5 + (dt.day : Int) - 1
  let doe : Int := yoe * 365 + yoe / 4 - yoe / 100 + doy
  era * 146097 + doe - 719468

/-- ECMAScript's TimeClip for a local-midnight date (the worker runs in
UTC): the time value `epochDays * 86400000` ms must satisfy
`|t| ≤ 8.64e15`, i.e. the day number lies within ±100,000,000 days of the
epoch.  Outside this range `new Date(y, m, d)` is an Invalid Date. -/
def inEcmaRange (dt : JDate) : Bool :=
  decide (-100000000 ≤ epochDays dt) && decide (epochDays dt ≤ 100000000)

/-- JS `start <= end` when `start` may be an Invalid Date: every comparison
against NaN is false. -/
def jlebOpt : Option JDate → JDate → Bool
  | none, _ => false
  | some a, b => jleb a b

/-- Source `parseTimeRange` with ECMAScript's clip: when the computed start
stays representable the result is exactly the calendar-model range; when it
does not, `new Date(startYear, …)` is an Invalid Date, which the
`setDate` adjustments keep Invalid and which the defensive clamp never
catches (`Invalid > endDate` is false), so the returned start is Invalid
(`none`).  Checking the final raw value is equivalent to ECMAScript's
per-construction clipping here: the resolver only ever subtracts time from
`now`, so only the lower clip is reachable, and the Feb-29 adjustment
(which stays inside the same March) and the month-end adjustment (which
moves backward) never re-enter the representable range from outside it. -/
def parseTimeRangeJS (input : String) (now : JDate) :
    Option JDate × JDate :=
  if inEcmaRange (parseTimeRangeRaw input now) then
    (some (parseTimeRange input now).1, now)
  else (none, now)

/-! ### Order facts about the resolver -/

/-- If `b`'s year is strictly smaller, `a < b` is false. -/
theorem jltb_year_lt (a b : JDate) (h : b.year < a.year) : jltb a b = false := by
  unfold jltb
  have h1 : ¬ a.year < b.year := by omega
  simp [h1, h]

/-- On a well-formed date, `setFullYear` really installs the requested year
(the Feb-29 overflow only moves the month, never the year). -/
theorem setFullYear_year_of_valid (y : Int) (d : JDate) (h : ValidJDate d) :
    (setFullYear y d).year = y := by
  obtain ⟨hm, hd1, hd2⟩ := h
  unfold setFullYear
  split
  · rename_i hover
    split
    · rename_i h11
      exfalso
      rw [h11] at hd2
      have h31 : daysInMonth y 11 = 31 := rfl
      have h31d : daysInMonth d.year 11 = 31 := rfl
      rw [h11] at hover
      omega
    · rfl
  · rfl

/-- Core lemma for the resolver invariant on the calendar model (no clip):
the computed range satisfies `start ≤ end` with end date `now`, and
whenever the raw start exceeds `end` the resolver resets the start to `end`
with its year decremented by one. -/
theorem parseTimeRange_start_le_end (input : String) (now : JDate)
    (h : ValidJDate now) :
    jleb (parseTimeRange input now).1 (parseTimeRange input now).2 = true ∧
    (parseTimeRange input now).2 = now ∧
    (jltb now (parseTimeRangeRaw input now) = true →
      (parseTimeRange input now).1 = setFullYear (now.year - 1) now) := by
  refine ⟨?_, rfl, ?_⟩
  · unfold parseTimeRange jleb
    by_cases hlt : jltb now (parseTimeRangeRaw input now) = true
    · simp only [hlt, if_true]
      have hy : (setFullYear (now.year - 1) now).year < now.year := by
        rw [setFullYear_year_of_valid _ _ h]; omega
      rw [jltb_year_lt _ _ hy]
      rfl
    · simp only [Bool.not_eq_true] at hlt
      simp [hlt]
  · intro h'
    simp [parseTimeRange, h']

/-- C8 (counterexample): at `now = 2025-10-11` the phrase "过去300000年"
computes `new Date(-297975, 9, 11)`, about -1.096×10⁸ days from the epoch
— beyond ECMAScript's clip — so the real resolver returns an Invalid start
date: `start ≤ end` is false (NaN comparison) and the defensive reset never
fires.  The claim's universal invariant therefore fails on the program. -/
theorem parseTimeRange_overflow_counterexample :
    parseTimeRangeJS "过去300000年" ⟨2025, 9, 11⟩ =
      (none, ⟨2025, 9, 11⟩) ∧
    jlebOpt (parseTimeRangeJS "过去300000年" ⟨2025, 9, 11⟩).1
      (parseTimeRangeJS "过去300000年" ⟨2025, 9, 11⟩).2 = false ∧
    inEcmaRange (parseTimeRangeRaw "过去300000年" ⟨2025, 9, 11⟩) = false ∧
    (parseTimeRangeJS "过去300000年" ⟨2025, 9, 11⟩).1 ≠
      some (setFullYear ((2025 : Int) - 1) ⟨2025, 9, 11⟩) := by
  refine ⟨by rfl, by rfl, by rfl, by decide⟩

/-- C8 (amended): for every input phrase and every (well-formed) current
date whose computed start stays within ECMAScript's representable range,
the range returned by the resolver satisfies `start ≤ end`, the end date
is `now`, and whenever the raw computed start exceeds `end` the resolver
resets the start to `end` with its year decremented by one.  (Outside that
range the start is an Invalid Date and the invariant fails — see the
counterexample.) -/
theorem parseTimeRangeJS_start_le_end (input : String) (now : JDate)
    (h : ValidJDate now)
    (hr : inEcmaRange (parseTimeRangeRaw input now) = true) :
    jlebOpt (parseTimeRangeJS input now).1
      (parseTimeRangeJS input now).2 = true ∧
    (parseTimeRangeJS input now).2 = now ∧
    (jltb now (parseTimeRangeRaw input now) = true →
      (parseTimeRangeJS input now).1 =
        some (setFullYear (now.year - 1) now)) := by
  obtain ⟨hle, -, hclamp⟩ := parseTimeRange_start_le_end input now h
  unfold parseTimeRangeJS
  rw [hr]
  refine ⟨?_, rfl, ?_⟩
  · simp only [if_true]
    exact hle
  · intro h'
    simp only [if_true, Option.some.injEq]
    exact hclamp h'

/-- Witness for the amended C8 at `now = 2025-10-11`, phrase "过去5年". -/
theorem parseTimeRangeJS_start_le_end_witness :
    ValidJDate ⟨2025, 9, 11⟩ ∧
    inEcmaRange (parseTimeRangeRaw "过去5年" ⟨2025, 9, 11⟩) = true ∧
    (jlebOpt (parseTimeRangeJS "过去5年" ⟨2025, 9, 11⟩).1
        (parseTimeRangeJS "过去5年" ⟨2025, 9, 11⟩).2 = true ∧
      (parseTimeRangeJS "过去5年" ⟨2025, 9, 11⟩).2 = (⟨2025, 9, 11⟩ : JDate) ∧
      (jltb ⟨2025, 9, 11⟩ (parseTimeRangeRaw "过去5年" ⟨2025, 9, 11⟩) = true →
        (parseTimeRangeJS "过去5年" ⟨2025, 9, 11⟩).1 =
          some (setFullYear ((2025 : Int) - 1) ⟨2025, 9, 11⟩))) :=
  ⟨by decide, by decide,
    parseTimeRangeJS_start_le_end "过去5年" ⟨2025, 9, 11⟩ (by decide)
      (by decide)⟩

/-- C1 (divergence): at `now = 2024-02-29` with phrase "过去1年" the code
produces start `2023-03-28` — `new Date(2023, 1, 29)` first rolls over to
March 1 and only then `setDate(28)` is applied, so the clamp lands on
March 28 instead of the documented February 28.  The default 10-year branch
(empty phrase, `now = 2028-02-29`, target year 2018 non-leap) slips the same
way to `2018-03-28`. -/
theorem parseTimeRange_leap_day_divergence :
    parseTimeRange "过去1年" ⟨2024, 1, 29⟩ =
      (⟨2023, 2, 28⟩, ⟨2024, 1, 29⟩) ∧
    parseTimeRange "" ⟨2028, 1, 29⟩ = (⟨2018, 2, 28⟩, ⟨2028, 1, 29⟩) := by
  constructor <;> rfl

/-- C2 (divergence): subtracting a multiple of 12 months that crosses the
year boundary is off by one year: `adjustedMonth = 12 + (targetMonth % 12)`
yields month index 12, which `new Date` rolls into January of the following
year, so "过去12个月" from 2024-01-15 returns 2024-01-15 itself.  The
claim's own example (2024-01-31 minus one month giving 2023-12-31) does
hold. -/
theorem parseTimeRange_month_multiple_divergence :
    parseTimeRange "过去12个月" ⟨2024, 0, 15⟩ =
      (⟨2024, 0, 15⟩, ⟨2024, 0, 15⟩) ∧
    parseTimeRange "过去1个月" ⟨2024, 0, 31⟩ =
      (⟨2023, 11, 31⟩, ⟨2024, 0, 31⟩) := by
  constructor <;> rfl

/-! ### Amount parsing (`parseInputAmount`) -/

/-- Characters of the regex class `[0-9,.]` (the numeric group). -/
def isAmountChar (c : Char) : Bool := isDigitC c || c = ',' || c = '.'

/-- Characters of the regex class `[万千亿KMkm百万]` (the unit group). -/
def isUnitChar (c : Char) : Bool :=
  c = '万' || c = '千' || c = '亿' || c = 'K' || c = 'M' || c = 'k' ||
    c = 'm' || c = '百'

/-- Characters matched by `\s` (ASCII whitespace suffices here). -/
def isSpaceChar (c : Char) : Bool :=
  c = ' ' || c = '\t' || c = '\n' || c = '\r'

/-- Table `UNIT_MAP` from the source, scales as exact rationals. -/
def UNIT_MAP : List (String × ℚ) :=
  [("万", 10000), ("w", 10000), ("亿", 100000000),
   ("k", 1000), ("K", 1000), ("m", 1000000), ("M", 1000000),
   ("千", 1000), ("百万", 1000000)]

/-- JS `parseFloat` restricted to strings over `[0-9.]` (all the worker ever
passes it): longest prefix `digits ['.' digits]`, `NaN` (= `none`) when that
prefix contains no digit. -/
def jsParseFloat (cs : List Char) : Option ℚ :=
  match cs.drop (cs.takeWhile isDigitC).length with
  | '.' :: rest2 =>
    if (cs.takeWhile isDigitC).isEmpty ∧ (rest2.takeWhile isDigitC).isEmpty
    then none
    else
      some ((digitsToNat (cs.takeWhile isDigitC) : ℚ) +
        (digitsToNat (rest2.takeWhile isDigitC) : ℚ) /
          (10 ^ (rest2.takeWhile isDigitC).length : ℚ))
  | _ =>
    if (cs.takeWhile isDigitC).isEmpty then none
    else some (digitsToNat (cs.takeWhile isDigitC))

/-- The comma-stripped numeric group of `input`
(`match[1].replace(/,/g, '')` fed to `parseFloat`). -/
def numericValue (s : String) : Option ℚ :=
  jsParseFloat ((s.data.takeWhile isAmountChar).filter (fun c => c ≠ ','))

/-- The scale factor the source applies for the optional unit suffix:
`UNIT_MAP[match[2]]` when the suffix is present and known, otherwise 1. -/
def unitScale (s : String) : ℚ :=
  if (((s.data.dropWhile isAmountChar).dropWhile isSpaceChar).takeWhile
      isUnitChar).isEmpty then 1
  else
    (UNIT_MAP.lookup (String.mk
      (((s.data.dropWhile isAmountChar).dropWhile isSpaceChar).takeWhile
        isUnitChar))).getD 1

/-- Source `parseInputAmount`: empty input defaults to 1, a missing
numeric group is `NaN` (= `none`), otherwise `parseFloat` of the
comma-stripped group times the unit scale when the suffix is in
`UNIT_MAP`. -/
def parseInputAmount (input : String) : Option ℚ :=
  if input = "" then some 1
  else if (input.data.takeWhile isAmountChar).isEmpty then none
  else
    match jsParseFloat
        ((input.data.takeWhile isAmountChar).filter (fun c => c ≠ ',')) with
    | none => none
    | some n =>
      if (((input.data.dropWhile isAmountChar).dropWhile
          isSpaceChar).takeWhile isUnitChar).isEmpty then some n
      else
        match UNIT_MAP.lookup (String.mk
            (((input.data.dropWhile isAmountChar).dropWhile
              isSpaceChar).takeWhile isUnitChar)) with
        | some scale => some (n * scale)
        | none => some n

/-- C9: `parseInputAmount` returns 1 on empty input, `NaN` (`none`) exactly
when the input has no parseable numeric prefix, and otherwise the parsed
number times the scale of the optional unit suffix; in particular
"3万" ↦ 30000, "1.5K" ↦ 1500, "" ↦ 1 and "abc" ↦ NaN. -/
theorem parseInputAmount_spec :
    parseInputAmount "" = some 1 ∧
    parseInputAmount "3万" = some 30000 ∧
    parseInputAmount "1.5K" = some 1500 ∧
    parseInputAmount "abc" = none ∧
    (∀ s : String, s ≠ "" →
      (parseInputAmount s = none ↔ numericValue s = none)) ∧
    (∀ s : String, ∀ n : ℚ, numericValue s = some n →
      parseInputAmount s = some (n * unitScale s)) := by
  have h3w : parseInputAmount "3万" = some ((3 : ℚ) * 10000) := by rfl
  have h15 : parseInputAmount "1.5K" =
      some ((((1 : ℕ) : ℚ) + ((5 : ℕ) : ℚ) / 10 ^ 1) * 1000) := by rfl
  refine ⟨by rfl, by rw [h3w]; norm_num, by rw [h15]; norm_num, by rfl,
    ?_, ?_⟩
  · intro s hs
    unfold parseInputAmount numericValue
    rw [if_neg hs]
    by_cases hg : (s.data.takeWhile isAmountChar).isEmpty
    · have hnil : s.data.takeWhile isAmountChar = [] :=
        List.isEmpty_iff.mp hg
      simp [hg, hnil, jsParseFloat]
    · simp only [hg, if_false, Bool.false_eq_true]
      cases hpf : jsParseFloat
          ((s.data.takeWhile isAmountChar).filter (fun c => c ≠ ',')) with
      | none => simp
      | some n =>
        simp only []
        constructor
        · intro hcontr
          exfalso
          revert hcontr
          split <;> simp
          split <;> simp
        · intro hcontr
          exact absurd hcontr (by simp)
  · intro s n h
    have hs : s ≠ "" := by
      intro he
      rw [he] at h
      simp [numericValue, jsParseFloat] at h
    unfold parseInputAmount
    rw [if_neg hs]
    have hg : ¬ (s.data.takeWhile isAmountChar).isEmpty := by
      intro hg
      have hnil : s.data.takeWhile isAmountChar = [] :=
        List.isEmpty_iff.mp hg
      rw [numericValue, hnil] at h
      simp [jsParseFloat] at h
    simp only [hg, if_false, Bool.false_eq_true]
    rw [numericValue] at h
    rw [h]
    unfold unitScale
    by_cases hu : (((s.data.dropWhile isAmountChar).dropWhile
        isSpaceChar).takeWhile isUnitChar).isEmpty
    · simp [hu]
    · simp only [hu, if_false, Bool.false_eq_true]
      cases hl : UNIT_MAP.lookup (String.mk
          (((s.data.dropWhile isAmountChar).dropWhile
            isSpaceChar).takeWhile isUnitChar)) with
      | none => simp [Option.getD]
      | some scale => simp [Option.getD]

/-! ### Currency normalization (`normalizeCurrency`) -/

/-- Table `CURRENCY_ALIAS` from the source, in object-literal insertion order
(the order `Object.keys` iterates for these non-numeric keys). -/
def CURRENCY_ALIAS : List (String × String) :=
  [("USD", "USD"), ("美金", "USD"), ("美元", "USD"), ("刀", "USD"),
   ("CNY", "CNY"), ("人民币", "CNY"), ("rmb", "CNY"), ("软妹币", "CNY"),
   ("JPY", "JPY"), ("日元", "JPY"), ("倭元", "JPY"),
   ("EUR", "EUR"), ("欧元", "EUR"),
   ("GBP", "GBP"), ("英镑", "GBP"),
   ("CAD", "CAD"), ("加元", "CAD"),
   ("AUD", "AUD"), ("澳元", "AUD"),
   ("CHF", "CHF"), ("瑞士法郎", "CHF"),
   ("HKD", "HKD"), ("港币", "HKD"), ("港元", "HKD")]

/-- Cleaning step: uppercase, then strip every character that is neither
A-Z nor CJK (the regex class A-Z plus the 一-龥 range). -/
def cleanCurrency (s : String) : String :=
  String.mk ((s.data.map Char.toUpper).filter fun c =>
    (decide ('A' ≤ c) && decide (c ≤ 'Z')) ||
      (decide (0x4e00 ≤ c.toNat) && decide (c.toNat ≤ 0x9fa5)))

/-- Whether `hay` starts with `needle` (character-wise). -/
def listStartsWith : List Char → List Char → Bool
  | _, [] => true
  | [], _ :: _ => false
  | a :: as, b :: bs => (a == b) && listStartsWith as bs

/-- JS `hay.includes(needle)` on character lists. -/
def listContainsSub (needle : List Char) : List Char → Bool
  | [] => listStartsWith [] needle
  | c :: t => listStartsWith (c :: t) needle || listContainsSub needle t

/-- JS `hay.includes(needle)`. -/
def strIncludes (hay needle : String) : Bool :=
  listContainsSub needle.data hay.data

/-- Source `normalizeCurrency`: falsy input gives `null`; else an
exact alias-table lookup of the cleaned string, and failing that,
`Object.keys(CURRENCY_ALIAS).find(key => key.includes(cleaned) ||
cleaned.includes(key))` — which returns the KEY, not its value. -/
def normalizeCurrency : Option String → Option String
  | none => none
  | some input =>
    if input = "" then none
    else
      match CURRENCY_ALIAS.lookup (cleanCurrency input) with
      | some v => some v
      | none =>
        (CURRENCY_ALIAS.find? (fun p =>
          strIncludes p.1 (cleanCurrency input) ||
            strIncludes (cleanCurrency input) p.1)).map Prod.fst

/-- Any value obtained by `List.lookup` is among the mapped values. -/
theorem lookup_mem_values {α β : Type} [BEq α] (l : List (α × β)) (k : α)
    (v : β) (h : l.lookup k = some v) : v ∈ l.map Prod.snd := by
  induction l with
  | nil => simp [List.lookup] at h
  | cons p t ih =>
    rw [List.lookup] at h
    by_cases hk : (k == p.1) = true
    · rw [hk] at h
      simp only [Option.some.injEq] at h
      simp [h]
    · rw [Bool.not_eq_true] at hk
      rw [hk] at h
      simp [ih h]

/-- C5 (counterexample): the substring fallback returns the alias KEY
"人民币", which is not a canonical code (not among the alias table's
values), and re-normalizing that output yields "CNY" instead of returning
it unchanged. -/
theorem normalizeCurrency_fallback_counterexample :
    normalizeCurrency (some "人民") = some "人民币" ∧
    ("人民币" ∈ CURRENCY_ALIAS.map Prod.snd → False) ∧
    normalizeCurrency (some "人民币") = some "CNY" :=
  ⟨by rfl, by decide, by rfl⟩

/-- C5 (amended): an exact alias-table key match returns that key's
canonical code, which is drawn from the table's values and is a fixed point
of re-normalization; the function returns `none` exactly when neither an
exact key match nor a substring-containment match exists.  (The
substring fallback itself returns the first matching KEY, which need not be
canonical — see the counterexample.) -/
theorem normalizeCurrency_exact_match (s v : String)
    (h : CURRENCY_ALIAS.lookup (cleanCurrency s) = some v) (hs : s ≠ "") :
    normalizeCurrency (some s) = some v ∧
    v ∈ CURRENCY_ALIAS.map Prod.snd ∧
    normalizeCurrency (some v) = some v ∧
    (∀ t : String, t ≠ "" →
      (normalizeCurrency (some t) = none ↔
        CURRENCY_ALIAS.lookup (cleanCurrency t) = none ∧
          CURRENCY_ALIAS.find? (fun p =>
            strIncludes p.1 (cleanCurrency t) ||
              strIncludes (cleanCurrency t) p.1) = none)) := by
  have hval : v ∈ CURRENCY_ALIAS.map Prod.snd :=
    lookup_mem_values _ _ _ h
  have hfix : ∀ w ∈ CURRENCY_ALIAS.map Prod.snd,
      normalizeCurrency (some w) = some w := by decide
  refine ⟨?_, hval, hfix v hval, ?_⟩
  · show (if s = "" then none else _) = some v
    rw [if_neg hs, h]
  · intro t ht
    show (if t = "" then none else _) = none ↔ _
    rw [if_neg ht]
    cases hl : CURRENCY_ALIAS.lookup (cleanCurrency t) with
    | some w => simp [hl]
    | none =>
      cases hf : CURRENCY_ALIAS.find? (fun p =>
          strIncludes p.1 (cleanCurrency t) ||
            strIncludes (cleanCurrency t) p.1) with
      | some p => simp [hl, hf]
      | none => simp [hl, hf]

/-- Witness for the amended C5 at the alias "美元" (canonical code USD). -/
theorem normalizeCurrency_exact_match_witness :
    CURRENCY_ALIAS.lookup (cleanCurrency "美元") = some "USD" ∧
    ("美元" : String) ≠ "" ∧
    (normalizeCurrency (some "美元") = some "USD" ∧
      "USD" ∈ CURRENCY_ALIAS.map Prod.snd ∧
      normalizeCurrency (some "USD") = some "USD" ∧
      (∀ t : String, t ≠ "" →
        (normalizeCurrency (some t) = none ↔
          CURRENCY_ALIAS.lookup (cleanCurrency t) = none ∧
            CURRENCY_ALIAS.find? (fun p =>
              strIncludes p.1 (cleanCurrency t) ||
                strIncludes (cleanCurrency t) p.1) = none))) :=
  ⟨by decide, by decide,
    normalizeCurrency_exact_match "美元" "USD" (by decide) (by decide)⟩

/-! ### Statistics aggregation (`generateHistoryTable`)

A fetched rate series is embedded as `List (String × Option ℚ)`: the date
keys of `data.rates` in iteration order, each paired with `rates[date][to]`
(`none` for a missing / `null` / `NaN` entry).  The source keeps a rate only
when `rate && !isNaN(rate)`, i.e. present and nonzero. -/

/-- Per-year accumulator `{min, max, sum, count}` from the source. -/
structure YStat where
  min : ℚ
  max : ℚ
  sum : ℚ
  count : Nat
deriving DecidableEq, Repr

/-- One update of a year's accumulator with a new rate. -/
def stepYStat (st : YStat) (r : ℚ) : YStat :=
  ⟨min st.min r, max st.max r, st.sum + r, st.count + 1⟩

/-- The `yearlyStats[year]` update: insert `{rate,rate,rate,1}` on first sight
of the year, update the existing entry otherwise (JS objects keep the first
insertion position). -/
def upsertStat (acc : List (String × YStat)) (y : String) (r : ℚ) :
    List (String × YStat) :=
  match acc with
  | [] => [(y, ⟨r, r, r, 1⟩)]
  | (a, st) :: t =>
    if a = y then (a, stepYStat st r) :: t
    else (a, st) :: upsertStat t y r

/-- The `Object.entries(data.rates).forEach` fold of the source, with the
`rate && !isNaN(rate)` filter and `year = date.substring(0, 4)`. -/
def buildStats (series : List (String × Option ℚ))
    (acc : List (String × YStat)) : List (String × YStat) :=
  match series with
  | [] => acc
  | (d, r?) :: rest =>
    match r? with
    | some r =>
      if r ≠ 0 then buildStats rest (upsertStat acc (d.take 4) r)
      else buildStats rest acc
    | none => buildStats rest acc

/-- The finished `yearlyStats` object. -/
def yearlyStats (series : List (String × Option ℚ)) :
    List (String × YStat) :=
  buildStats series []

/-- List `allRates`: the rates that survive the filter, in series order. -/
def keptRates (series : List (String × Option ℚ)) : List ℚ :=
  series.filterMap fun p =>
    match p.2 with
    | some r => if r ≠ 0 then some r else none
    | none => none

/-- The kept rates whose date starts with the four characters `y`. -/
def keptRatesOfYear (y : String) (series : List (String × Option ℚ)) :
    List ℚ :=
  series.filterMap fun p =>
    match p.2 with
    | some r => if r ≠ 0 ∧ p.1.take 4 = y then some r else none
    | none => none

/-- JS `Object.keys(yearlyStats).sort()`: ascending string sort (stable). -/
def sortStrings (l : List String) : List String :=
  l.insertionSort (· ≤ ·)

/-- One rendered table line: `avg = sum/count`,
`volatility = (max-min)/min*100`. -/
structure YRow where
  year : String
  min : ℚ
  max : ℚ
  avg : ℚ
  vol : ℚ
deriving DecidableEq, Repr

/-- The row the source renders for year `y` with accumulator `st`. -/
def mkRow (y : String) (st : YStat) : YRow :=
  ⟨y, st.min, st.max, st.sum / st.count, (st.max - st.min) / st.min * 100⟩

/-- The per-year table: sorted year keys, each rendered via `mkRow`. -/
def historyRows (series : List (String × Option ℚ)) : List YRow :=
  (sortStrings ((yearlyStats series).map Prod.fst)).filterMap fun y =>
    ((yearlyStats series).lookup y).map (mkRow y)

/-- Overall block: `Math.min/max(...allRates)`, mean, total volatility,
and the displayed data-point count. -/
structure OverallStat where
  min : ℚ
  max : ℚ
  avg : ℚ
  vol : ℚ
  points : Nat
deriving DecidableEq, Repr

/-- Result of `generateHistoryTable`: the two early-return error strings
("没有找到…" for an empty `rates` object, "…处理失败" when every rate is
filtered out) are both a no-data report; otherwise the yearly table plus
the overall block. -/
inductive AggResult where
  | noData
  | report (rows : List YRow) (overall : OverallStat)
deriving DecidableEq, Repr

/-- Source `generateHistoryTable` (the rendered Markdown text is
abstracted to the numbers it interpolates). -/
def generateHistoryTable (series : List (String × Option ℚ)) : AggResult :=
  if series.isEmpty then AggResult.noData
  else
    match keptRates series with
    | [] => AggResult.noData
    | r :: rs =>
      AggResult.report (historyRows series)
        ⟨rs.foldl min r, rs.foldl max r,
          (r + rs.sum) / ((1 + rs.length : Nat) : ℚ),
          (rs.foldl max r - rs.foldl min r) / rs.foldl min r * 100,
          1 + rs.length⟩

/-! ### Fold characterization of the aggregator -/

/-- Replay of the per-year accumulator over a list of kept rates. -/
def foldStats : Option YStat → List ℚ → Option YStat
  | st?, [] => st?
  | none, r :: l => foldStats (some ⟨r, r, r, 1⟩) l
  | some st, r :: l => foldStats (some (stepYStat st r)) l

/-- Predicate: `st` is exactly the min/max/sum/count statistics of `l`. -/
def GoodStat (l : List ℚ) (st : YStat) : Prop :=
  (st.min ∈ l ∧ ∀ r ∈ l, st.min ≤ r) ∧
    (st.max ∈ l ∧ ∀ r ∈ l, r ≤ st.max) ∧
    st.sum = l.sum ∧ st.count = l.length

theorem upsertStat_lookup (acc : List (String × YStat)) (y : String)
    (r : ℚ) (z : String) :
    (upsertStat acc y r).lookup z =
      if z = y then
        some (match acc.lookup y with
          | none => (⟨r, r, r, 1⟩ : YStat)
          | some st => stepYStat st r)
      else acc.lookup z := by
  induction acc with
  | nil =>
    by_cases hzy : z = y
    · subst hzy; simp [upsertStat, List.lookup]
    · simp [upsertStat, List.lookup, hzy,
        (by simpa using hzy : ¬ (z == y) = true)]
  | cons p t ih =>
    obtain ⟨a, st⟩ := p
    by_cases hay : a = y
    · subst hay
      by_cases hza : z = a
      · subst hza
        simp [upsertStat, List.lookup]
      · simp [upsertStat, List.lookup, hza,
          (by simpa using hza : ¬ (z == a) = true)]
    · by_cases hza : z = a
      · have hzy : ¬ z = y := fun h => hay (hza.symm.trans h)
        simp [upsertStat, List.lookup, if_neg hay, if_neg hzy,
          (by simpa using hza : (z == a) = true)]
      · simp only [upsertStat, if_neg hay, List.lookup,
          (by simpa using hza : ¬ (z == a) = true), Bool.false_eq_true,
          if_false, (by simpa using (fun h => hay h.symm) : ¬ (y == a) = true)]
        rw [ih]

theorem buildStats_lookup (series : List (String × Option ℚ))
    (acc : List (String × YStat)) (z : String) :
    (buildStats series acc).lookup z =
      foldStats (acc.lookup z) (keptRatesOfYear z series) := by
  induction series generalizing acc with
  | nil => simp [buildStats, keptRatesOfYear, foldStats]
  | cons p rest ih =>
    obtain ⟨d, r?⟩ := p
    cases r? with
    | none =>
      simpa [buildStats, keptRatesOfYear, List.filterMap_cons] using ih acc
    | some r =>
      by_cases hr : r = 0
      · simp [buildStats, keptRatesOfYear, List.filterMap_cons, hr, ih acc]
      · by_cases hy : d.take 4 = z
        · have hkept : keptRatesOfYear z ((d, some r) :: rest) =
              r :: keptRatesOfYear z rest := by
            simp [keptRatesOfYear, List.filterMap_cons, hr, hy]
          rw [show buildStats ((d, some r) :: rest) acc =
              buildStats rest (upsertStat acc (d.take 4) r) by
            simp [buildStats, hr]]
          rw [ih, hkept, upsertStat_lookup, hy, if_pos rfl]
          cases hacc : acc.lookup z <;> simp [foldStats]
        · have hkept : keptRatesOfYear z ((d, some r) :: rest) =
              keptRatesOfYear z rest := by
            simp [keptRatesOfYear, List.filterMap_cons, hy]
          rw [show buildStats ((d, some r) :: rest) acc =
              buildStats rest (upsertStat acc (d.take 4) r) by
            simp [buildStats, hr]]
          rw [ih, hkept, upsertStat_lookup,
            if_neg (fun h => hy h.symm)]

theorem foldStats_some_good (l : List ℚ) :
    ∀ (l0 : List ℚ) (st0 st : YStat), GoodStat l0 st0 →
      foldStats (some st0) l = some st → GoodStat (l0 ++ l) st := by
  induction l with
  | nil =>
    intro l0 st0 st h0 h
    simp only [foldStats, Option.some.injEq] at h
    subst h
    simpa using h0
  | cons r t ih =>
    intro l0 st0 st h0 h
    rw [foldStats] at h
    have h1 : GoodStat (l0 ++ [r]) (stepYStat st0 r) := by
      obtain ⟨⟨hminm, hminle⟩, ⟨hmaxm, hmaxle⟩, hsum, hcount⟩ := h0
      refine ⟨⟨?_, ?_⟩, ⟨?_, ?_⟩, ?_, ?_⟩
      · rcases le_total st0.min r with hle | hle
        · rw [show (stepYStat st0 r).min = min st0.min r from rfl,
            min_eq_left hle]
          exact List.mem_append_left _ hminm
        · rw [show (stepYStat st0 r).min = min st0.min r from rfl,
            min_eq_right hle]
          simp
      · intro x hx
        rcases List.mem_append.mp hx with hx | hx
        · exact le_trans (min_le_left _ _) (hminle x hx)
        · rw [List.mem_singleton.mp hx]
          exact min_le_right _ _
      · rcases le_total st0.max r with hle | hle
        · rw [show (stepYStat st0 r).max = max st0.max r from rfl,
            max_eq_right hle]
          simp
        · rw [show (stepYStat st0 r).max = max st0.max r from rfl,
            max_eq_left hle]
          exact List.mem_append_left _ hmaxm
      · intro x hx
        rcases List.mem_append.mp hx with hx | hx
        · exact le_trans (hmaxle x hx) (le_max_left _ _)
        · rw [List.mem_singleton.mp hx]
          exact le_max_right _ _
      · show st0.sum + r = (l0 ++ [r]).sum
        simp [hsum]
      · show st0.count + 1 = (l0 ++ [r]).length
        simp [hcount]
    have := ih (l0 ++ [r]) (stepYStat st0 r) st h1 h
    simpa using this

theorem foldStats_none_good (l : List ℚ) (st : YStat)
    (h : foldStats none l = some st) : GoodStat l st := by
  cases l with
  | nil => simp [foldStats] at h
  | cons r t =>
    rw [foldStats] at h
    have h0 : GoodStat [r] (⟨r, r, r, 1⟩ : YStat) := by
      refine ⟨⟨?_, ?_⟩, ⟨?_, ?_⟩, ?_, ?_⟩ <;> simp
    simpa using foldStats_some_good t [r] _ st h0 h

theorem foldStats_some_isSome (l : List ℚ) :
    ∀ st0 : YStat, ∃ st, foldStats (some st0) l = some st := by
  induction l with
  | nil => intro st0; exact ⟨st0, rfl⟩
  | cons r t ih => intro st0; simpa [foldStats] using ih (stepYStat st0 r)

theorem yearlyStats_lookup (series : List (String × Option ℚ))
    (z : String) :
    (yearlyStats series).lookup z =
      foldStats none (keptRatesOfYear z series) := by
  have := buildStats_lookup series [] z
  simpa [yearlyStats, List.lookup] using this

theorem yearlyStats_good (series : List (String × Option ℚ)) (y : String)
    (st : YStat) (h : (yearlyStats series).lookup y = some st) :
    GoodStat (keptRatesOfYear y series) st :=
  foldStats_none_good _ _ (by rw [← yearlyStats_lookup]; exact h)

theorem yearlyStats_isSome (series : List (String × Option ℚ))
    (y : String) :
    ((yearlyStats series).lookup y).isSome = true ↔
      keptRatesOfYear y series ≠ [] := by
  rw [yearlyStats_lookup]
  cases hk : keptRatesOfYear y series with
  | nil => simp [foldStats]
  | cons r t =>
    rw [foldStats]
    obtain ⟨st, hst⟩ := foldStats_some_isSome t (⟨r, r, r, 1⟩ : YStat)
    simp [hst]

/-- Any key found by `List.lookup` is among the mapped keys. -/
theorem lookup_mem_keys {α β : Type} [BEq α] [LawfulBEq α]
    (l : List (α × β)) (k : α) (v : β) (h : l.lookup k = some v) :
    k ∈ l.map Prod.fst := by
  induction l with
  | nil => simp [List.lookup] at h
  | cons p t ih =>
    rw [List.lookup] at h
    by_cases hk : (k == p.1) = true
    · simp [beq_iff_eq.mp hk]
    · rw [Bool.not_eq_true] at hk
      rw [hk] at h
      simp [ih h]

theorem mkRow_mem_historyRows (series : List (String × Option ℚ))
    (y : String) (st : YStat)
    (h : (yearlyStats series).lookup y = some st) :
    mkRow y st ∈ historyRows series := by
  have hk : y ∈ (yearlyStats series).map Prod.fst :=
    lookup_mem_keys _ _ _ h
  have hs : y ∈ sortStrings ((yearlyStats series).map Prod.fst) := by
    unfold sortStrings
    exact (List.perm_insertionSort _ _).mem_iff.mpr hk
  exact List.mem_filterMap.mpr ⟨y, hs, by rw [h]; rfl⟩

theorem historyRows_mem (series : List (String × Option ℚ)) (row : YRow)
    (h : row ∈ historyRows series) :
    ∃ st, (yearlyStats series).lookup row.year = some st ∧
      row = mkRow row.year st := by
  obtain ⟨y, _, hmap⟩ := List.mem_filterMap.mp h
  cases hl : (yearlyStats series).lookup y with
  | none => rw [hl] at hmap; simp at hmap
  | some st =>
    rw [hl] at hmap
    simp only [Option.map_some', Option.some.injEq] at hmap
    have hy : row.year = y := by rw [← hmap]; rfl
    exact ⟨st, by rw [hy]; exact ⟨hl, hmap.symm⟩⟩

theorem pairwise_year_filterMap (l : List String)
    (f : String → Option YRow)
    (hf : ∀ y row, f y = some row → row.year = y)
    (hl : l.Pairwise (· ≤ ·)) :
    (l.filterMap f).Pairwise (fun a b => a.year ≤ b.year) := by
  induction l with
  | nil => simp
  | cons y t ih =>
    rw [List.filterMap_cons]
    rcases hl with _ | ⟨hle, hp⟩
    cases hfy : f y with
    | none => exact ih hp
    | some row =>
      refine List.Pairwise.cons ?_ (ih hp)
      intro b hb
      obtain ⟨z, hz, hfz⟩ := List.mem_filterMap.mp hb
      rw [hf y row hfy, hf z b hfz]
      exact hle z hz

theorem historyRows_sorted (series : List (String × Option ℚ)) :
    (historyRows series).Pairwise (fun a b => a.year ≤ b.year) := by
  refine pairwise_year_filterMap _ _ ?_ ?_
  · intro y row hrow
    cases hl : (yearlyStats series).lookup y with
    | none => rw [hl] at hrow; simp at hrow
    | some st =>
      rw [hl] at hrow
      simp only [Option.map_some', Option.some.injEq] at hrow
      rw [← hrow]
      rfl
  · exact List.sorted_insertionSort _ _

theorem foldl_min_mem (l : List ℚ) (a : ℚ) : l.foldl min a ∈ a :: l := by
  induction l generalizing a with
  | nil => simp
  | cons b t ih =>
    rw [List.foldl_cons]
    rcases List.mem_cons.mp (ih (min a b)) with h | h
    · rcases min_choice a b with hc | hc <;> rw [h, hc] <;> simp
    · simp [h]

theorem keptRates_ne_zero (series : List (String × Option ℚ)) :
    ∀ x ∈ keptRates series, x ≠ 0 := by
  intro x hx
  obtain ⟨p, _, hmap⟩ := List.mem_filterMap.mp hx
  rcases p with ⟨d, r?⟩
  cases r? with
  | none => simp at hmap
  | some r =>
    by_cases hr : r = 0
    · simp [hr] at hmap
    · simp only [if_pos hr, Option.some.injEq] at hmap
      rw [← hmap]
      exact hr

theorem keptRatesOfYear_ne_zero (y : String)
    (series : List (String × Option ℚ)) :
    ∀ x ∈ keptRatesOfYear y series, x ≠ 0 := by
  intro x hx
  obtain ⟨p, _, hmap⟩ := List.mem_filterMap.mp hx
  rcases p with ⟨d, r?⟩
  cases r? with
  | none => simp at hmap
  | some r =>
    by_cases hc : r ≠ 0 ∧ d.take 4 = y
    · simp only [if_pos hc, Option.some.injEq] at hmap
      rw [← hmap]
      exact hc.1
    · simp [if_neg hc] at hmap

/-- The spec's example series: two 2022 rates 1.0 and 1.2, two 2023 rates
1.1 and 1.3. -/
def exSeries : List (String × Option ℚ) :=
  [("2022-01-03", some 1), ("2022-07-01", some (6/5)),
   ("2023-01-04", some (11/10)), ("2023-07-03", some (13/10))]

/-- C6: the aggregator folds the series by the first four characters of the
date key into per-year min/max/sum/count, a year has an entry exactly when
it has a kept rate, the rendered rows are in ascending year-string order
with `avg = sum/count` and `volatility = (max-min)/min*100`, and on the
example series the 2022 row is min 1, max 1.2, avg 1.1, volatility 20%. -/
theorem generateHistoryTable_yearly (series : List (String × Option ℚ)) :
    (∀ y st, (yearlyStats series).lookup y = some st →
      st.min ∈ keptRatesOfYear y series ∧
        (∀ r ∈ keptRatesOfYear y series, st.min ≤ r) ∧
        st.max ∈ keptRatesOfYear y series ∧
        (∀ r ∈ keptRatesOfYear y series, r ≤ st.max) ∧
        st.sum = (keptRatesOfYear y series).sum ∧
        st.count = (keptRatesOfYear y series).length) ∧
    (∀ y, ((yearlyStats series).lookup y).isSome = true ↔
      keptRatesOfYear y series ≠ []) ∧
    (historyRows series).Pairwise (fun a b => a.year ≤ b.year) ∧
    (∀ row ∈ historyRows series, ∃ st,
      (yearlyStats series).lookup row.year = some st ∧
        row.min = st.min ∧ row.max = st.max ∧
        row.avg = st.sum / st.count ∧
        row.vol = (st.max - st.min) / st.min * 100) ∧
    (∃ row ∈ historyRows exSeries, row.year = "2022" ∧
      row.min = 1 ∧ row.max = 6/5 ∧ row.avg = 11/10 ∧ row.vol = 20) := by
  refine ⟨?_, yearlyStats_isSome series, historyRows_sorted series, ?_, ?_⟩
  · intro y st h
    obtain ⟨⟨h1, h2⟩, ⟨h3, h4⟩, h5, h6⟩ := yearlyStats_good series y st h
    exact ⟨h1, h2, h3, h4, h5, h6⟩
  · intro row hrow
    obtain ⟨st, hst, hrw⟩ := historyRows_mem series row hrow
    exact ⟨st, hst, by rw [hrw]; rfl, by rw [hrw]; rfl,
      by rw [hrw]; rfl, by rw [hrw]; rfl⟩
  · have ht1 : ("2022-01-03" : String).take 4 = "2022" := by decide
    have ht2 : ("2022-07-01" : String).take 4 = "2022" := by decide
    have ht3 : ("2023-01-04" : String).take 4 = "2023" := by decide
    have ht4 : ("2023-07-03" : String).take 4 = "2023" := by decide
    have hne : ("2023" : String) ≠ "2022" := by decide
    have hk : keptRatesOfYear "2022" exSeries = [1, 6/5] := by
      simp only [keptRatesOfYear, exSeries, List.filterMap_cons,
        List.filterMap_nil, ht1, ht2, ht3, ht4]
      norm_num [hne]
    have hsome : ((yearlyStats exSeries).lookup "2022").isSome = true :=
      (yearlyStats_isSome _ _).mpr (by rw [hk]; simp)
    obtain ⟨st, hst⟩ := Option.isSome_iff_exists.mp hsome
    have hg := yearlyStats_good _ _ _ hst
    rw [hk] at hg
    obtain ⟨⟨hminm, hminle⟩, ⟨hmaxm, hmaxle⟩, hsum, hcount⟩ := hg
    have hmin : st.min = 1 := by
      rcases List.mem_cons.mp hminm with h | h
      · exact h
      · exfalso
        have h15 := hminle 1 (by simp)
        rw [List.mem_singleton.mp h] at h15
        norm_num at h15
    have hmax : st.max = 6/5 := by
      rcases List.mem_cons.mp hmaxm with h | h
      · exfalso
        have h15 := hmaxle (6/5) (by simp)
        rw [h] at h15
        norm_num at h15
      · exact List.mem_singleton.mp h
    refine ⟨mkRow "2022" st, mkRow_mem_historyRows _ _ _ hst, rfl,
      ?_, ?_, ?_, ?_⟩
    · exact hmin
    · exact hmax
    · show st.sum / (st.count : ℚ) = 11/10
      rw [hsum, hcount]
      norm_num
    · show (st.max - st.min) / st.min * 100 = 20
      rw [hmin, hmax]
      norm_num

/-- C7: on a series that is empty or whose rates are all filtered out the
aggregator returns the no-data report (it is a total function, so it never
throws), and in every produced report all divisor positions — each row's
`count` and `min`, and the overall point count and minimum — are nonzero. -/
theorem generateHistoryTable_no_data (series : List (String × Option ℚ)) :
    (keptRates series = [] → generateHistoryTable series = AggResult.noData) ∧
    (∀ rows ov, generateHistoryTable series = AggResult.report rows ov →
      keptRates series ≠ [] ∧ ov.points = (keptRates series).length ∧
        ov.points ≠ 0 ∧ ov.min ∈ keptRates series ∧ ov.min ≠ 0 ∧
        (∀ row ∈ rows, ∃ st,
          (yearlyStats series).lookup row.year = some st ∧
            st.count ≠ 0 ∧ st.min ≠ 0)) := by
  constructor
  · intro hk
    unfold generateHistoryTable
    split
    · rfl
    · rw [hk]
  · intro rows ov h
    unfold generateHistoryTable at h
    split at h
    · exact absurd h (by simp)
    · rename_i hne
      cases hkept : keptRates series with
      | nil => rw [hkept] at h; exact absurd h (by simp)
      | cons r rs =>
        rw [hkept] at h
        simp only [AggResult.report.injEq] at h
        obtain ⟨hrows, hov⟩ := h
        have hpts : ov.points = 1 + rs.length := by rw [← hov]
        have hmin : ov.min = rs.foldl min r := by rw [← hov]
        refine ⟨by simp, by rw [hpts, List.length_cons]; omega,
          by rw [hpts]; omega, by rw [hmin]; exact foldl_min_mem rs r,
          ?_, ?_⟩
        · have hmem : ov.min ∈ keptRates series := by
            rw [hmin, hkept]
            exact foldl_min_mem rs r
          exact keptRates_ne_zero series _ hmem
        · intro row hr
          rw [← hrows] at hr
          obtain ⟨st, hst, _⟩ := historyRows_mem series row hr
          have hgood := yearlyStats_good _ _ _ hst
          have hkne : keptRatesOfYear row.year series ≠ [] := by
            have := (yearlyStats_isSome series row.year).mp
              (by rw [hst]; rfl)
            exact this
          refine ⟨st, hst, ?_, ?_⟩
          · obtain ⟨_, _, _, hcnt⟩ := hgood
            rw [hcnt]
            intro hlen
            exact hkne (List.eq_nil_of_length_eq_zero hlen)
          · obtain ⟨⟨hm, _⟩, _, _, _⟩ := hgood
            exact keptRatesOfYear_ne_zero _ _ _ hm

/-! ### EUR triangulation and the historical fallback chain

A leg response's `rates` object is embedded as `List (String × Option ℚ)`:
date keys in order, each paired with the rate at the relevant currency key
(`EUR` for the from-leg, `to` for the EUR-leg); `none` when the date or the
currency key is missing. -/

/-- Source `combineEuroData`: walk the from-leg's dates, keep a date when both
`rates[date]?.EUR` and `rates[date]?.[to]` are truthy (present and
nonzero), and store the product of the two legs. -/
def combineEuroData (l1 l2 : List (String × Option ℚ)) :
    List (String × ℚ) :=
  l1.filterMap fun p =>
    match p.2, l2.lookup p.1 with
    | some a, some (some b) =>
      if a ≠ 0 ∧ b ≠ 0 then some (p.1, a * b) else none
    | _, _ => none

/-- The upstream responses one `/history` request can observe: the direct
range query as a function of the requested range, and the two triangulation
legs (`none` = fetch failed / response not ok). -/
structure HistEnv where
  direct : JDate → JDate → Option (List (String × Option ℚ))
  legFromEur : Option (List (String × Option ℚ))
  legEurTo : Option (List (String × Option ℚ))

/-- Source `tryDirectHistoricalQuery`: `null` on fetch failure or an empty `rates`
object, otherwise the data-point count (the table text is abstracted). -/
def tryDirectHistoricalQuery (env : HistEnv) (s e : JDate) : Option Nat :=
  match env.direct s e with
  | none => none
  | some rates => if rates.length = 0 then none else some rates.length

/-- Source `tryEuroHistoricalQuery`: both legs are issued (via `Promise.all`) and
both must be ok; the combined series must be nonempty. -/
def tryEuroHistoricalQuery (env : HistEnv) : Option Nat :=
  match env.legFromEur, env.legEurTo with
  | some l1, some l2 =>
    if (combineEuroData l1 l2).length = 0 then none
    else some (combineEuroData l1 l2).length
  | _, _ => none

/-- The copy `new Date(endDate)` followed by `setFullYear(end.year - years)`. -/
def shrunkStart (e : JDate) (y : Nat) : JDate := setFullYear (e.year - y) e

/-- One iteration of `tryFallbackTimeRange`'s loop: the direct query over
the shrunken range, accepted only when it clears `dataPoints > 50`. -/
def fallbackStep (env : HistEnv) (e : JDate) (y : Nat) : Option Nat :=
  match tryDirectHistoricalQuery env (shrunkStart e y) e with
  | some n => if 50 < n then some n else none
  | none => none

/-- What `/history` answers: the full-range direct table, the
EUR-triangulated table, a reduced-range table annotated with the years that
were actually shown, or the "数据暂不可用" text with suggested
alternatives. -/
inductive HistOutcome where
  | fullDirect (pts : Nat)
  | viaEuro (pts : Nat)
  | reduced (years : Nat) (pts : Nat)
  | unavailable
deriving DecidableEq, Repr

/-- One upstream attempt, in the order the handler issues them. -/
inductive HAttempt where
  | direct (s e : JDate)
  | euro
  | shrunk (years : Nat) (s e : JDate)
deriving DecidableEq, Repr

/-- Source `tryFallbackTimeRange`: retry the direct query over 5, then 3, then 1
years, returning the first result with more than 50 points; paired with the
trace of attempts issued. -/
def tryFallbackTimeRange (env : HistEnv) (e : JDate) :
    HistOutcome × List HAttempt :=
  match fallbackStep env e 5 with
  | some n =>
    (HistOutcome.reduced 5 n, [HAttempt.shrunk 5 (shrunkStart e 5) e])
  | none =>
    match fallbackStep env e 3 with
    | some n =>
      (HistOutcome.reduced 3 n,
        [HAttempt.shrunk 5 (shrunkStart e 5) e,
         HAttempt.shrunk 3 (shrunkStart e 3) e])
    | none =>
      match fallbackStep env e 1 with
      | some n =>
        (HistOutcome.reduced 1 n,
          [HAttempt.shrunk 5 (shrunkStart e 5) e,
           HAttempt.shrunk 3 (shrunkStart e 3) e,
           HAttempt.shrunk 1 (shrunkStart e 1) e])
      | none =>
        (HistOutcome.unavailable,
          [HAttempt.shrunk 5 (shrunkStart e 5) e,
           HAttempt.shrunk 3 (shrunkStart e 3) e,
           HAttempt.shrunk 1 (shrunkStart e 1) e])

/-- The tail of `handleHistoricalData` after the direct attempt failed the 100-point
bar: the EUR triangulation, then the range-shrinking loop. -/
def afterDirect (env : HistEnv) (s e : JDate) :
    HistOutcome × List HAttempt :=
  match tryEuroHistoricalQuery env with
  | some n =>
    (HistOutcome.viaEuro n, [HAttempt.direct s e, HAttempt.euro])
  | none =>
    ((tryFallbackTimeRange env e).1,
      HAttempt.direct s e :: HAttempt.euro :: (tryFallbackTimeRange env e).2)

/-- Source `handleHistoricalData`: the direct range query is answered outright
only with `result && result.dataPoints >= 100`; otherwise the fallback
chain runs.  Returns the outcome and the trace of issued attempts. -/
def handleHistoricalData (env : HistEnv) (s e : JDate) :
    HistOutcome × List HAttempt :=
  match tryDirectHistoricalQuery env s e with
  | some n =>
    if 100 ≤ n then (HistOutcome.fullDirect n, [HAttempt.direct s e])
    else afterDirect env s e
  | none => afterDirect env s e

/-- A key absent from the key list is never found by `List.lookup`. -/
theorem lookup_eq_none_of_not_mem {α β : Type} [BEq α] [LawfulBEq α]
    (l : List (α × β)) (k : α) (h : k ∉ l.map Prod.fst) :
    l.lookup k = none := by
  induction l with
  | nil => rfl
  | cons p t ih =>
    rw [List.map_cons, List.mem_cons, not_or] at h
    rw [List.lookup, (by simpa using h.1 : (k == p.1) = false)]
    exact ih h.2

/-- A pair found by `List.lookup` is a member of the list. -/
theorem lookup_mem_pair {α β : Type} [BEq α] [LawfulBEq α]
    (l : List (α × β)) (k : α) (v : β) (h : l.lookup k = some v) :
    (k, v) ∈ l := by
  induction l with
  | nil => simp [List.lookup] at h
  | cons p t ih =>
    rw [List.lookup] at h
    by_cases hk : (k == p.1) = true
    · rw [hk] at h
      simp only [Option.some.injEq] at h
      have : (k, v) = p := by
        rcases p with ⟨p1, p2⟩
        simp only [Prod.mk.injEq]
        exact ⟨beq_iff_eq.mp hk, h.symm⟩
      rw [this]
      simp
    · rw [Bool.not_eq_true] at hk
      rw [hk] at h
      simp [ih h]

/-- Closed form of a lookup into the combined series (from-leg dates
assumed distinct, as JS object keys are). -/
theorem combineEuroData_lookup (l1 l2 : List (String × Option ℚ))
    (d : String) (h1 : (l1.map Prod.fst).Nodup) :
    (combineEuroData l1 l2).lookup d =
      match l1.lookup d, l2.lookup d with
      | some (some a), some (some b) =>
        if a ≠ 0 ∧ b ≠ 0 then some (a * b) else none
      | _, _ => none := by
  induction l1 with
  | nil =>
    cases hl2 : l2.lookup d with
    | none => simp [combineEuroData, List.lookup]
    | some x => cases x <;> simp [combineEuroData, List.lookup]
  | cons p t ih =>
    rcases p with ⟨pd, pr⟩
    rw [List.map_cons, List.nodup_cons] at h1
    obtain ⟨hpd, ht⟩ := h1
    by_cases hd : d = pd
    · subst hd
      have hl : ((d, pr) :: t).lookup d = some pr := by
        simp [List.lookup]
      rw [hl]
      have htl : t.lookup d = none := lookup_eq_none_of_not_mem t d hpd
      cases pr with
      | none =>
        have hc : combineEuroData ((d, none) :: t) l2 =
            combineEuroData t l2 := by
          simp only [combineEuroData, List.filterMap_cons]
        rw [hc, ih ht, htl]
      | some a =>
        cases hl2 : l2.lookup d with
        | none =>
          have hc : combineEuroData ((d, some a) :: t) l2 =
              combineEuroData t l2 := by
            simp only [combineEuroData, List.filterMap_cons, hl2]
          rw [hc, ih ht, htl, hl2]
        | some x =>
          cases x with
          | none =>
            have hc : combineEuroData ((d, some a) :: t) l2 =
                combineEuroData t l2 := by
              simp only [combineEuroData, List.filterMap_cons, hl2]
            rw [hc, ih ht, htl, hl2]
          | some b =>
            by_cases hcond : a ≠ 0 ∧ b ≠ 0
            · have hc : combineEuroData ((d, some a) :: t) l2 =
                  (d, a * b) :: combineEuroData t l2 := by
                simp only [combineEuroData, List.filterMap_cons, hl2,
                  if_pos hcond]
              rw [hc]
              simp [List.lookup, hcond]
            · have hc : combineEuroData ((d, some a) :: t) l2 =
                  combineEuroData t l2 := by
                simp only [combineEuroData, List.filterMap_cons, hl2,
                  if_neg hcond]
              rw [hc, ih ht, htl, hl2]
              simp [hcond]
    · have hl : ((pd, pr) :: t).lookup d = t.lookup d := by
        rw [List.lookup, (by simpa using hd : (d == pd) = false)]
      rw [hl, ← ih ht]
      cases pr with
      | none =>
        have hc : combineEuroData ((pd, none) :: t) l2 =
            combineEuroData t l2 := by
          simp only [combineEuroData, List.filterMap_cons]
        rw [hc]
      | some a =>
        cases hl2 : l2.lookup pd with
        | none =>
          have hc : combineEuroData ((pd, some a) :: t) l2 =
              combineEuroData t l2 := by
            simp only [combineEuroData, List.filterMap_cons, hl2]
          rw [hc]
        | some x =>
          cases x with
          | none =>
            have hc : combineEuroData ((pd, some a) :: t) l2 =
                combineEuroData t l2 := by
              simp only [combineEuroData, List.filterMap_cons, hl2]
            rw [hc]
          | some b =>
            by_cases hcond : a ≠ 0 ∧ b ≠ 0
            · have hc : combineEuroData ((pd, some a) :: t) l2 =
                  (pd, a * b) :: combineEuroData t l2 := by
                simp only [combineEuroData, List.filterMap_cons, hl2,
                  if_pos hcond]
              rw [hc, List.lookup,
                (by simpa using hd : (d == pd) = false)]
            · have hc : combineEuroData ((pd, some a) :: t) l2 =
                  combineEuroData t l2 := by
                simp only [combineEuroData, List.filterMap_cons, hl2,
                  if_neg hcond]
              rw [hc]

/-- C4: with distinct from-leg dates and positive rates, the triangulated
series holds exactly the dates carrying a rate in both legs (from→EUR and
EUR→to), valued at the product of the two leg rates; and the triangulation
step fails as a whole (`null`) whenever either leg's fetch failed — both
legs are issued unconditionally and both must succeed. -/
theorem combineEuroData_spec (l1 l2 : List (String × Option ℚ))
    (h1 : (l1.map Prod.fst).Nodup)
    (hp1 : ∀ p ∈ l1, ∀ a : ℚ, p.2 = some a → 0 < a)
    (hp2 : ∀ p ∈ l2, ∀ b : ℚ, p.2 = some b → 0 < b) :
    (∀ d r, (combineEuroData l1 l2).lookup d = some r ↔
      ∃ a b, l1.lookup d = some (some a) ∧
        l2.lookup d = some (some b) ∧ r = a * b) ∧
    (∀ env : HistEnv, env.legFromEur = none ∨ env.legEurTo = none →
      tryEuroHistoricalQuery env = none) := by
  constructor
  · intro d r
    rw [combineEuroData_lookup l1 l2 d h1]
    cases hl1 : l1.lookup d with
    | none =>
      cases hl2 : l2.lookup d with
      | none => simp
      | some x => cases x <;> simp
    | some pr =>
      cases pr with
      | none =>
        cases hl2 : l2.lookup d with
        | none => simp
        | some x => cases x <;> simp
      | some a =>
        cases hl2 : l2.lookup d with
        | none => simp
        | some x =>
          cases x with
          | none => simp
          | some b =>
            have ha : 0 < a :=
              hp1 _ (lookup_mem_pair l1 d (some a) hl1) a rfl
            have hbp : 0 < b :=
              hp2 _ (lookup_mem_pair l2 d (some b) hl2) b rfl
            show (if a ≠ 0 ∧ b ≠ 0 then some (a * b) else none) =
                some r ↔ ∃ a' b', some (some a) = some (some a') ∧
                  some (some b) = some (some b') ∧ r = a' * b'
            rw [if_pos ⟨ne_of_gt ha, ne_of_gt hbp⟩]
            constructor
            · intro h
              injection h with h
              exact ⟨a, b, rfl, rfl, h.symm⟩
            · rintro ⟨a', b', ha', hb', hr⟩
              simp only [Option.some.injEq] at ha' hb'
              rw [hr, ha', hb']
  · intro env henv
    rcases henv with h | h
    · unfold tryEuroHistoricalQuery
      rw [h]
    · unfold tryEuroHistoricalQuery
      rw [h]
      cases env.legFromEur <;> rfl

/-- Witness for C4: a one-date from-leg at rate 0.9 and an EUR-leg at rate
2 combine to 1.8 at that date. -/
theorem combineEuroData_spec_witness :
    ((([("2024-01-02", some ((9 : ℚ)/10))] :
        List (String × Option ℚ)).map Prod.fst).Nodup ∧
      (∀ p ∈ ([("2024-01-02", some ((9 : ℚ)/10))] :
          List (String × Option ℚ)), ∀ a : ℚ, p.2 = some a → 0 < a) ∧
      (∀ p ∈ ([("2024-01-02", some (2 : ℚ))] :
          List (String × Option ℚ)), ∀ b : ℚ, p.2 = some b → 0 < b)) ∧
    ((∀ d r, ((combineEuroData [("2024-01-02", some ((9 : ℚ)/10))]
        [("2024-01-02", some (2 : ℚ))]).lookup d = some r ↔
      ∃ a b, ([("2024-01-02", some ((9 : ℚ)/10))] :
          List (String × Option ℚ)).lookup d = some (some a) ∧
        ([("2024-01-02", some (2 : ℚ))] :
          List (String × Option ℚ)).lookup d = some (some b) ∧
        r = a * b)) ∧
      (∀ env : HistEnv, env.legFromEur = none ∨ env.legEurTo = none →
        tryEuroHistoricalQuery env = none)) := by
  have hp1 : ∀ p ∈ ([("2024-01-02", some ((9 : ℚ)/10))] :
      List (String × Option ℚ)), ∀ a : ℚ, p.2 = some a → 0 < a := by
    intro p hp a hpa
    rw [List.mem_singleton.mp hp] at hpa
    simp only [Option.some.injEq] at hpa
    rw [← hpa]
    norm_num
  have hp2 : ∀ p ∈ ([("2024-01-02", some (2 : ℚ))] :
      List (String × Option ℚ)), ∀ b : ℚ, p.2 = some b → 0 < b := by
    intro p hp b hpb
    rw [List.mem_singleton.mp hp] at hpb
    simp only [Option.some.injEq] at hpb
    rw [← hpb]
    norm_num
  have hnd : (([("2024-01-02", some ((9 : ℚ)/10))] :
      List (String × Option ℚ)).map Prod.fst).Nodup := by
    simp
  exact ⟨⟨hnd, hp1, hp2⟩, combineEuroData_spec _ _ hnd hp1 hp2⟩

/-- A shrunken retry is returned only above the 50-point bar. -/
theorem fallbackStep_gt50 (env : HistEnv) (e : JDate) (y n : Nat)
    (h : fallbackStep env e y = some n) : 50 < n := by
  unfold fallbackStep at h
  cases htd : tryDirectHistoricalQuery env (shrunkStart e y) e with
  | none => rw [htd] at h; exact absurd h (by simp)
  | some m =>
    rw [htd] at h
    change (if 50 < m then some m else none) = some n at h
    by_cases hm : 50 < m
    · rw [if_pos hm] at h
      injection h with h
      omega
    · rw [if_neg hm] at h
      exact absurd h (by simp)

/-- Behaviour of the chain after the direct attempt failed the 100-point
bar: the euro step answers alone when it succeeds; otherwise shrinking runs
5 → 3 → 1-year in order; `unavailable` only after every step failed. -/
theorem afterDirect_chain (env : HistEnv) (s e : JDate) :
    ((afterDirect env s e).2 = [HAttempt.direct s e, HAttempt.euro] ∨
      (afterDirect env s e).2 = [HAttempt.direct s e, HAttempt.euro,
        HAttempt.shrunk 5 (shrunkStart e 5) e] ∨
      (afterDirect env s e).2 = [HAttempt.direct s e, HAttempt.euro,
        HAttempt.shrunk 5 (shrunkStart e 5) e,
        HAttempt.shrunk 3 (shrunkStart e 3) e] ∨
      (afterDirect env s e).2 = [HAttempt.direct s e, HAttempt.euro,
        HAttempt.shrunk 5 (shrunkStart e 5) e,
        HAttempt.shrunk 3 (shrunkStart e 3) e,
        HAttempt.shrunk 1 (shrunkStart e 1) e]) ∧
    HAttempt.euro ∈ (afterDirect env s e).2 ∧
    (∀ m, tryEuroHistoricalQuery env = some m →
      (afterDirect env s e).1 = HistOutcome.viaEuro m ∧
        (afterDirect env s e).2 = [HAttempt.direct s e, HAttempt.euro]) ∧
    (∀ y n, (afterDirect env s e).1 = HistOutcome.reduced y n →
      50 < n ∧ fallbackStep env e y = some n ∧
        (y = 5 ∨ (y = 3 ∧ fallbackStep env e 5 = none) ∨
          (y = 1 ∧ fallbackStep env e 5 = none ∧
            fallbackStep env e 3 = none))) ∧
    ((afterDirect env s e).1 = HistOutcome.unavailable →
      tryEuroHistoricalQuery env = none ∧ fallbackStep env e 5 = none ∧
        fallbackStep env e 3 = none ∧ fallbackStep env e 1 = none) ∧
    ((tryEuroHistoricalQuery env = none ∧ fallbackStep env e 5 = none ∧
        fallbackStep env e 3 = none ∧ fallbackStep env e 1 = none) →
      (afterDirect env s e).1 = HistOutcome.unavailable) := by
  cases he : tryEuroHistoricalQuery env with
  | some m =>
    have hout : afterDirect env s e =
        (HistOutcome.viaEuro m,
          [HAttempt.direct s e, HAttempt.euro]) := by
      simp [afterDirect, he]
    rw [hout]
    refine ⟨Or.inl rfl, by simp, ?_, ?_, ?_, ?_⟩
    · intro m' hm'
      injection hm' with hmm
      exact ⟨by rw [hmm], rfl⟩
    · intro y n h
      simp at h
    · intro h
      simp at h
    · rintro ⟨hc, -, -, -⟩
      exact absurd hc (by simp)
  | none =>
    cases h5 : fallbackStep env e 5 with
    | some n5 =>
      have hout : afterDirect env s e =
          (HistOutcome.reduced 5 n5,
            [HAttempt.direct s e, HAttempt.euro,
             HAttempt.shrunk 5 (shrunkStart e 5) e]) := by
        simp [afterDirect, tryFallbackTimeRange, he, h5]
      rw [hout]
      refine ⟨Or.inr (Or.inl rfl), by simp, ?_, ?_, ?_, ?_⟩
      · intro m hm
        exact absurd hm (by simp)
      · intro y n h
        simp only [HistOutcome.reduced.injEq] at h
        obtain ⟨hy, hn⟩ := h
        subst hy
        subst hn
        exact ⟨fallbackStep_gt50 env e 5 n5 h5, h5, Or.inl rfl⟩
      · intro h
        simp at h
      · rintro ⟨-, hc, -, -⟩
        exact absurd hc (by simp)
    | none =>
      cases h3 : fallbackStep env e 3 with
      | some n3 =>
        have hout : afterDirect env s e =
            (HistOutcome.reduced 3 n3,
              [HAttempt.direct s e, HAttempt.euro,
               HAttempt.shrunk 5 (shrunkStart e 5) e,
               HAttempt.shrunk 3 (shrunkStart e 3) e]) := by
          simp [afterDirect, tryFallbackTimeRange, he, h5, h3]
        rw [hout]
        refine ⟨Or.inr (Or.inr (Or.inl rfl)), by simp, ?_, ?_, ?_, ?_⟩
        · intro m hm
          exact absurd hm (by simp)
        · intro y n h
          simp only [HistOutcome.reduced.injEq] at h
          obtain ⟨hy, hn⟩ := h
          subst hy
          subst hn
          exact ⟨fallbackStep_gt50 env e 3 n3 h3, h3,
            Or.inr (Or.inl ⟨rfl, rfl⟩)⟩
        · intro h
          simp at h
        · rintro ⟨-, -, hc, -⟩
          exact absurd hc (by simp)
      | none =>
        cases hb1 : fallbackStep env e 1 with
        | some n1 =>
          have hout : afterDirect env s e =
              (HistOutcome.reduced 1 n1,
                [HAttempt.direct s e, HAttempt.euro,
                 HAttempt.shrunk 5 (shrunkStart e 5) e,
                 HAttempt.shrunk 3 (shrunkStart e 3) e,
                 HAttempt.shrunk 1 (shrunkStart e 1) e]) := by
            simp [afterDirect, tryFallbackTimeRange, he, h5, h3, hb1]
          rw [hout]
          refine ⟨Or.inr (Or.inr (Or.inr rfl)), by simp, ?_, ?_, ?_, ?_⟩
          · intro m hm
            exact absurd hm (by simp)
          · intro y n h
            simp only [HistOutcome.reduced.injEq] at h
            obtain ⟨hy, hn⟩ := h
            subst hy
            subst hn
            exact ⟨fallbackStep_gt50 env e 1 n1 hb1, hb1,
              Or.inr (Or.inr ⟨rfl, rfl, rfl⟩)⟩
          · intro h
            simp at h
          · rintro ⟨-, -, -, hc⟩
            exact absurd hc (by simp)
        | none =>
          have hout : afterDirect env s e =
              (HistOutcome.unavailable,
                [HAttempt.direct s e, HAttempt.euro,
                 HAttempt.shrunk 5 (shrunkStart e 5) e,
                 HAttempt.shrunk 3 (shrunkStart e 3) e,
                 HAttempt.shrunk 1 (shrunkStart e 1) e]) := by
            simp [afterDirect, tryFallbackTimeRange, he, h5, h3, hb1]
          rw [hout]
          refine ⟨Or.inr (Or.inr (Or.inr rfl)), by simp, ?_, ?_, ?_, ?_⟩
          · intro m hm
            exact absurd hm (by simp)
          · intro y n h
            simp at h
          · intro _
            exact ⟨rfl, rfl, rfl, rfl⟩
          · intro _
            rfl

/-- C3: the `/history` fallback chain, in order.  The trace is a prefix of
direct → euro → 5y → 3y → 1y; the euro attempt happens exactly when the
direct query misses the 100-point bar; a successful euro query (hence in
particular one with ≥ 100 points) answers the request with no shrinking
attempted; a reduced-range answer carries more than 50 points and is the
first of 5y/3y/1y to do so; the data-unavailable text appears only after
the direct, euro, and all three shrunken queries failed. -/
theorem handleHistoricalData_fallback_chain (env : HistEnv) (s e : JDate) :
    ((handleHistoricalData env s e).2 = [HAttempt.direct s e] ∨
      (handleHistoricalData env s e).2 =
        [HAttempt.direct s e, HAttempt.euro] ∨
      (handleHistoricalData env s e).2 = [HAttempt.direct s e,
        HAttempt.euro, HAttempt.shrunk 5 (shrunkStart e 5) e] ∨
      (handleHistoricalData env s e).2 = [HAttempt.direct s e,
        HAttempt.euro, HAttempt.shrunk 5 (shrunkStart e 5) e,
        HAttempt.shrunk 3 (shrunkStart e 3) e] ∨
      (handleHistoricalData env s e).2 = [HAttempt.direct s e,
        HAttempt.euro, HAttempt.shrunk 5 (shrunkStart e 5) e,
        HAttempt.shrunk 3 (shrunkStart e 3) e,
        HAttempt.shrunk 1 (shrunkStart e 1) e]) ∧
    (HAttempt.euro ∈ (handleHistoricalData env s e).2 ↔
      ¬ ∃ n, tryDirectHistoricalQuery env s e = some n ∧ 100 ≤ n) ∧
    (∀ m, tryEuroHistoricalQuery env = some m → 100 ≤ m →
      (handleHistoricalData env s e).2 = [HAttempt.direct s e] ∨
      ((handleHistoricalData env s e).1 = HistOutcome.viaEuro m ∧
        (handleHistoricalData env s e).2 =
          [HAttempt.direct s e, HAttempt.euro])) ∧
    (∀ y n, (handleHistoricalData env s e).1 = HistOutcome.reduced y n →
      50 < n ∧ fallbackStep env e y = some n ∧
        (y = 5 ∨ (y = 3 ∧ fallbackStep env e 5 = none) ∨
          (y = 1 ∧ fallbackStep env e 5 = none ∧
            fallbackStep env e 3 = none))) ∧
    ((handleHistoricalData env s e).1 = HistOutcome.unavailable →
      (¬ ∃ n, tryDirectHistoricalQuery env s e = some n ∧ 100 ≤ n) ∧
        tryEuroHistoricalQuery env = none ∧
        fallbackStep env e 5 = none ∧ fallbackStep env e 3 = none ∧
        fallbackStep env e 1 = none) ∧
    (((¬ ∃ n, tryDirectHistoricalQuery env s e = some n ∧ 100 ≤ n) ∧
        tryEuroHistoricalQuery env = none ∧
        fallbackStep env e 5 = none ∧ fallbackStep env e 3 = none ∧
        fallbackStep env e 1 = none) →
      (handleHistoricalData env s e).1 = HistOutcome.unavailable) := by
  cases hd : tryDirectHistoricalQuery env s e with
  | some n =>
    by_cases h100 : 100 ≤ n
    · have hout : handleHistoricalData env s e =
          (HistOutcome.fullDirect n, [HAttempt.direct s e]) := by
        simp [handleHistoricalData, hd, h100]
      rw [hout]
      refine ⟨Or.inl rfl, ?_, ?_, ?_, ?_, ?_⟩
      · exact iff_of_false (by simp) (fun hc => hc ⟨n, rfl, h100⟩)
      · intro m _ _
        exact Or.inl rfl
      · intro y n' h
        simp at h
      · intro h
        simp at h
      · rintro ⟨hno', -⟩
        exact absurd ⟨n, rfl, h100⟩ hno'
    · have hno : ¬ ∃ m, (some n : Option Nat) = some m ∧ 100 ≤ m := by
        rintro ⟨m, hm, hle⟩
        injection hm with hmm
        subst hmm
        exact h100 hle
      have hout : handleHistoricalData env s e = afterDirect env s e := by
        simp [handleHistoricalData, hd, h100]
      obtain ⟨had1, had2, had3, had4, had5, had6⟩ := afterDirect_chain env s e
      rw [hout]
      refine ⟨?_, iff_of_true had2 hno, ?_, had4, ?_, ?_⟩
      · rcases had1 with h | h | h | h
        · exact Or.inr (Or.inl h)
        · exact Or.inr (Or.inr (Or.inl h))
        · exact Or.inr (Or.inr (Or.inr (Or.inl h)))
        · exact Or.inr (Or.inr (Or.inr (Or.inr h)))
      · intro m hm _
        exact Or.inr (had3 m hm)
      · intro h
        obtain ⟨he, h5, h3, hb1⟩ := had5 h
        exact ⟨hno, he, h5, h3, hb1⟩
      · rintro ⟨-, hrest⟩
        exact had6 hrest
  | none =>
    have hno : ¬ ∃ m, (none : Option Nat) = some m ∧ 100 ≤ m := by
      rintro ⟨m, hm, _⟩
      exact absurd hm (by simp)
    have hout : handleHistoricalData env s e = afterDirect env s e := by
      simp [handleHistoricalData, hd]
    obtain ⟨had1, had2, had3, had4, had5, had6⟩ := afterDirect_chain env s e
    rw [hout]
    refine ⟨?_, iff_of_true had2 hno, ?_, had4, ?_, ?_⟩
    · rcases had1 with h | h | h | h
      · exact Or.inr (Or.inl h)
      · exact Or.inr (Or.inr (Or.inl h))
      · exact Or.inr (Or.inr (Or.inr (Or.inl h)))
      · exact Or.inr (Or.inr (Or.inr (Or.inr h)))
    · intro m hm _
      exact Or.inr (had3 m hm)
    · intro h
      obtain ⟨he, h5, h3, hb1⟩ := had5 h
      exact ⟨hno, he, h5, h3, hb1⟩
    · rintro ⟨-, hrest⟩
      exact had6 hrest

end CurrencyBot
